import Mathlib

/-!
Verification of the Guo2017 ingestion-and-segmentation pipeline
(src/pipeline/acquisition.py), shallow-embedded in Lean.

Pure values read from the hierarchical container file are modelled as
rationals; stored blobs are modelled by `PyVal` (a numpy array tagged with its
dtype, or a python tuple).  Each `make` step of the pipeline is embedded as a
function from the located file (or `none` when the FileLocator found no match)
to the list of effects it performs, or to the rows it builds.
-/

namespace Guo2017

/-- Numpy dtypes relevant to the container's datasets. -/
inductive Dtype
  | f64
  | f32
  | i64
  | i32
deriving DecidableEq

/-- Values as stored into a longblob attribute: either a numpy array carrying
its native dtype, or a python tuple of values. -/
inductive PyVal
  | arr (d : Dtype) (data : List ℚ)
  | tup (xs : List PyVal)

/-- Whether a stored value is a numpy array (as opposed to e.g. a tuple). -/
def PyVal.isArr : PyVal → Bool
  | .arr _ _ => true
  | .tup _ => false

/-- A raw dataset inside the container: its dtype and its flat data. -/
abbrev Dataset := Dtype × List ℚ

/-- Reading a dataset with `np.array(...)` materializes a numpy array with the
dataset's native dtype. -/
def npArray (ds : Dataset) : PyVal := PyVal.arr ds.1 ds.2

/-- Header metadata of a candidate raw file, as read by the FileLocator. -/
structure FileMeta where
  subjectId : String
  sessionTime : ℕ
deriving DecidableEq

/-- Modelled from the spec: `utilities.find_session_matched_nwbfile` is not
under src/.  Per §4.1 the locator scans the candidate directory and returns
the first file whose embedded (subject id, session start time) pair equals the
query, or `NotFound` (here `none`) when no candidate matches. -/
def locate {α : Type} (cands : List (FileMeta × α)) (sid : String) (st : ℕ) :
    Option α :=
  (cands.find? (fun c => c.1.subjectId == sid && c.1.sessionTime == st)).map
    Prod.snd

/-- Effects performed by a `make` step, in program order. -/
inductive Ev
  | fopen
  | insMaster
  | insPart (t : String)
  | fclose
deriving DecidableEq

/-- The database operations of a trace (the insert events). -/
def dbOps (tr : List Ev) : List Ev :=
  tr.filter fun e =>
    match e with
    | .insMaster => true
    | .insPart _ => true
    | _ => false

/-- Whether an event is a part-row insert. -/
def isPartIns : Ev → Bool
  | .insPart _ => true
  | _ => false

/-- Datasets of a whole-cell behavior session file read by
`BehaviorAcquisition.make` (acquisition.py lines 84-86). -/
structure BehaviorFile where
  lickL : Dataset
  lickR : Dataset
  lickTsL : Dataset

/-- Datasets of a whole-cell session file read by
`IntracellularAcquisition.make` (acquisition.py lines 155-161). -/
structure IntraFile where
  mpData : Dataset
  mpWo : Dataset
  mpTs : Dataset
  ciData : Dataset
  ciTs : Dataset

/-- Effect trace of `BehaviorAcquisition.make` (acquisition.py lines 66-87):
on a missing file it returns at once; otherwise it opens the file, inserts the
master row, inserts the LickTrace part row, and never closes the handle. -/
def behaviorAcquisitionMake (file : Option BehaviorFile) : List Ev :=
  match file with
  | none => []
  | some _ => [Ev.fopen, Ev.insMaster, Ev.insPart "LickTrace"]

/-- Effect trace of `IntracellularAcquisition.make` (acquisition.py lines
137-163): open, master insert, MembranePotential part insert, CurrentInjection
part insert, close (the close only on this successful path). -/
def intracellularAcquisitionMake (file : Option IntraFile) : List Ev :=
  match file with
  | none => []
  | some _ =>
    [Ev.fopen, Ev.insMaster, Ev.insPart "MembranePotential",
      Ev.insPart "CurrentInjection", Ev.fclose]

/-- The LickTrace part row built by `BehaviorAcquisition.make`
(acquisition.py lines 84-87). -/
structure LickRow where
  lickTraceLeft : PyVal
  lickTraceRight : PyVal
  lickTraceTimeStamps : PyVal

/-- The MembranePotential part row built by `IntracellularAcquisition.make`
(acquisition.py lines 155-158). -/
structure MPRow where
  membranePotential : PyVal
  membranePotentialWoSpike : PyVal
  membranePotentialTimeStamps : PyVal

/-- The CurrentInjection part row built by `IntracellularAcquisition.make`
(acquisition.py lines 160-162). -/
structure CIRow where
  currentInjection : PyVal
  currentInjectionTimeStamps : PyVal

/-- Field assignments of acquisition.py lines 84-86. -/
def behaviorLickRow (f : BehaviorFile) : LickRow :=
  { lickTraceLeft := npArray f.lickL
    lickTraceRight := npArray f.lickR
    lickTraceTimeStamps := npArray f.lickTsL }

/-- Field assignments of acquisition.py lines 155-157. -/
def intraMPRow (f : IntraFile) : MPRow :=
  { membranePotential := npArray f.mpData
    membranePotentialWoSpike := npArray f.mpWo
    membranePotentialTimeStamps := npArray f.mpTs }

/-- Field assignments of acquisition.py lines 160-161.  Line 161 ends in a
trailing comma, so the timestamps field is assigned the python tuple
`(np.array(...),)` rather than the array itself. -/
def intraCIRow (f : IntraFile) : CIRow :=
  { currentInjection := npArray f.ciData
    currentInjectionTimeStamps := PyVal.tup [npArray f.ciTs] }

/-- Per-unit data of the extracellular file's EventWaveform/UnitTimes groups,
as read by `Spike.make` (acquisition.py lines 233-243). -/
structure UnitData where
  name : List Char
  electrodeIdx : ℤ
  depth : ℚ × ℚ × ℚ
  times : List ℚ
  waveform : List (List ℚ)
deriving DecidableEq, Inhabited

/-- A row of the Spike table, as assembled by `Spike.make`
(acquisition.py lines 236-243). -/
structure SpikeRow where
  unitId : ℕ
  channelId : ℤ
  spikeTimes : List ℚ
  cellType : List Char
  depthX : ℚ
  depthY : ℚ
  depthZ : ℚ
  spikeWaveform : List (List ℚ)
deriving DecidableEq, Inhabited

/-- Decimal value of a digit string. -/
def digitsToNat (ds : List Char) : ℕ :=
  ds.foldl (fun n c => 10 * n + (c.toNat - 48)) 0

/-- Embeds `int(re.search(r"\d+", unit_str).group())` (acquisition.py line
234): the first maximal digit run of the name, `none` when the name holds no
digit (in python `re.search` returns `None` and `.group()` raises). -/
def parseUnitId (s : List Char) : Option ℕ :=
  let ds := ((s.dropWhile (fun c => !c.isDigit)).takeWhile (fun c => c.isDigit))
  if ds.isEmpty then none else some (digitsToNat ds)

/-- The separator of the cell_types strings, `re.split(" - ", ...)`
(acquisition.py line 229). -/
def ctSep : List Char := [' ', '-', ' ']

/-- Splitting worker mirroring `re.split(" - ", s)`: scans left to right,
cutting at each occurrence of the (plain-text) separator.  The first argument
is recursion fuel; `splitSep` supplies enough for the whole input. -/
def splitSepGo : ℕ → List Char → List Char → List (List Char)
  | 0, l, acc => [acc.reverse ++ l]
  | _ + 1, [], acc => [acc.reverse]
  | fuel + 1, c :: rest, acc =>
    if ctSep.isPrefixOf (c :: rest) then
      acc.reverse :: splitSepGo fuel (rest.drop 2) []
    else
      splitSepGo fuel rest (c :: acc)

/-- Embeds `re.split(" - ", s)` (acquisition.py line 229). -/
def splitSep (l : List Char) : List (List Char) := splitSepGo l.length l []

/-- Python dict lookup: the most recent binding of the key wins. -/
def dictGet : List (List Char × List Char) → List Char → Option (List Char)
  | [], _ => none
  | e :: rest, k => if e.1 = k then some e.2 else dictGet rest k

/-- Embeds the cell_types loop of acquisition.py lines 226-230: each string is
split on the separator and `cell_type[split_str[0]] = split_str[1]` binds the
first part to the second; a string with fewer than two parts makes the python
indexing raise (modelled as the error case). -/
def buildCellTypesGo :
    List (List Char × List Char) → List (List Char) →
      Except Unit (List (List Char × List Char))
  | m, [] => Except.ok m
  | m, s :: rest =>
    match splitSep s with
    | p0 :: p1 :: _ => buildCellTypesGo ((p0, p1) :: m) rest
    | _ => Except.error ()

/-- The cell-type table decoder of `Spike.make`, starting from the empty
dict. -/
def buildCellTypes (l : List (List Char)) :
    Except Unit (List (List Char × List Char)) :=
  buildCellTypesGo [] l

/-- The Spike row built for one unit (acquisition.py lines 236-243):
`channel_id` is the file's 1-based electrode index minus one; every other
field is stored as read. -/
def spikeUnitRow (u : UnitData) (lbl : List Char) (uid : ℕ) : SpikeRow :=
  { unitId := uid
    channelId := u.electrodeIdx - 1
    spikeTimes := u.times
    cellType := lbl
    depthX := u.depth.1
    depthY := u.depth.2.1
    depthZ := u.depth.2.2
    spikeWaveform := u.waveform }

/-- The unit loop of `Spike.make` (acquisition.py lines 233-245): the units
are processed in order; a unit whose name is missing from the cell_types dict
(python `KeyError`) or holds no digits aborts the step with the rows inserted
so far kept; the flag records whether the loop ran to completion. -/
def processUnits (ct : List (List Char × List Char)) :
    List UnitData → List SpikeRow × Bool
  | [] => ([], true)
  | u :: rest =>
    match dictGet ct u.name, parseUnitId u.name with
    | some lbl, some uid =>
      (spikeUnitRow u lbl uid :: (processUnits ct rest).1,
        (processUnits ct rest).2)
    | _, _ => ([], false)

/-- Contents of an extracellular session file used by `Spike.make`. -/
structure SpikeFile where
  cellTypes : List (List Char)
  units : List UnitData

/-- Embeds `Spike.make` (acquisition.py lines 208-247): a missing file is a
no-op; otherwise the cell-type dict is built and the units are ingested in
order, the Bool recording whether the step completed without an uncaught
error. -/
def spikeMake (file : Option SpikeFile) : List SpikeRow × Bool :=
  match file with
  | none => ([], true)
  | some f =>
    match buildCellTypes f.cellTypes with
    | Except.error _ => ([], false)
    | Except.ok ct => processUnits ct f.units

/-- Modelled from the spec: the PopulationEngine (the datajoint populate
machinery behind `dj.Imported`/`dj.Computed`, not in src/).  Per §4.4 and §6,
populate walks the outstanding keys of a kind: a key already present is
skipped; otherwise the make step runs and `mk k` tells whether it inserted its
key (a make may legitimately insert nothing, e.g. when no raw file matches).
Returns the table state and the number of keys inserted. -/
def populate {K : Type} [DecidableEq K] (mk : K → Bool) :
    List K → List K → List K × ℕ
  | [], st => (st, 0)
  | k :: ks, st =>
    if k ∈ st then populate mk ks st
    else if mk k then
      ((populate mk ks (k :: st)).1, (populate mk ks (k :: st)).2 + 1)
    else populate mk ks st

/-- Modelled from the spec: the per-key transaction of the PopulationEngine
(§4.4, §5; the transaction wrapper lives in the datajoint library, not in
src/).  A make step's operations commit together: `failAt = some n` with `n`
inside the operation list aborts the step and rolls the whole key back,
otherwise every operation commits. -/
def runTx (ops : List Ev) (failAt : Option ℕ) : List Ev :=
  match failAt with
  | none => ops
  | some n => if n < ops.length then [] else ops

/-- Modelled from the spec: the SegmentationAlgorithm (§4.5) is absent from
src/ (`TrialExtracellular`, `TrialIntracellular` and `TrialBehavior` declare
their segmented attributes but no compute step).  The index range of samples
whose timestamp lies inside the trial window. -/
def segIndices (ts : List ℚ) (a b : ℚ) : List ℕ :=
  (List.range ts.length).filter
    (fun i => decide (a ≤ ts.getD i 0 ∧ ts.getD i 0 ≤ b))

/-- Modelled from the spec: the slice of the value array paired with the
in-window timestamps (§4.5): `segment(values, timestamps, [start, stop])`
keeps the values whose paired timestamp satisfies start ≤ t ≤ stop. -/
def segment {α : Type} (values : List α) (ts : List ℚ) (a b : ℚ) : List α :=
  ((ts.zip values).filter (fun p => decide (a ≤ p.1 ∧ p.1 ≤ b))).map Prod.snd

/-- Whether the STIM half of a trial descriptor marks a stim trial. -/
def parseStim (r : List Char) : Bool :=
  (r.dropWhile (fun c => c == ' ')) == "Stim".toList

/-- Modelled from the spec: `TrialSet.make` in src/pipeline/acquisition.py is
a stub (`return None`); per §4.3 the trial-descriptor split turns a
"TYPE, STIM" string into the pair (trial_type, stim_present) and fails with
MalformedDescriptor (here the error case) when the comma separator is
absent. -/
def splitTrialDescriptor (s : List Char) :
    Except Unit (List Char × Bool) :=
  if (',') ∈ s then
    Except.ok
      (s.takeWhile (fun c => c != ','),
        parseStim ((s.dropWhile (fun c => c != ',')).tail))
  else Except.error ()

/-- The spec's worked segmentation example: stream timestamps
0.1, 0.5, 1.2, 1.9, 2.4 (as exact rationals). -/
def exTs : List ℚ := [mkRat 1 10, mkRat 1 2, mkRat 6 5, mkRat 19 10, mkRat 12 5]

/-- The spec's worked segmentation example: stream values. -/
def exVals : List ℤ := [10, 11, 12, 13, 14]

/-! Helper lemmas. -/

lemma splitSepGo_fuel_congr :
    ∀ (f g : ℕ) (l acc : List Char), l.length ≤ f → l.length ≤ g →
      splitSepGo f l acc = splitSepGo g l acc := by
  intro f
  induction f with
  | zero =>
    intro g l acc hf _
    have hl : l = [] := List.eq_nil_of_length_eq_zero (Nat.le_zero.mp hf)
    subst hl
    cases g <;> simp [splitSepGo]
  | succ f ih =>
    intro g l acc hf hg
    cases l with
    | nil => cases g <;> simp [splitSepGo]
    | cons c rest =>
      cases g with
      | zero => simp at hg
      | succ g =>
        simp only [List.length_cons, Nat.succ_le_succ_iff] at hf hg
        simp only [splitSepGo]
        by_cases hp : ctSep.isPrefixOf (c :: rest) = true
        · rw [if_pos hp, if_pos hp,
            ih g (rest.drop 2) []
              (le_trans (le_trans (List.length_drop 2 rest).le (Nat.sub_le _ _)) hf)
              (le_trans (le_trans (List.length_drop 2 rest).le (Nat.sub_le _ _)) hg)]
        · rw [if_neg hp, if_neg hp, ih g rest (c :: acc) hf hg]

lemma splitSepGo_no_sep :
    ∀ (f : ℕ) (l acc : List Char), ¬ ctSep <:+: l →
      splitSepGo f l acc = [acc.reverse ++ l] := by
  intro f
  induction f with
  | zero => intro l acc _; rfl
  | succ f ih =>
    intro l acc h
    cases l with
    | nil => simp [splitSepGo]
    | cons c rest =>
      have hp : ¬ ctSep.isPrefixOf (c :: rest) = true := by
        intro hb
        exact h (List.IsPrefix.isInfix (List.isPrefixOf_iff_prefix.mp hb))
      simp only [splitSepGo, if_neg hp]
      rw [ih rest (c :: acc) (fun hi => h (List.infix_cons hi))]
      simp

lemma splitSepGo_boundary :
    ∀ (id : List Char) (f : ℕ) (rest acc : List Char), (' ') ∉ id →
      id.length + 3 + rest.length ≤ f →
      splitSepGo f (id ++ ctSep ++ rest) acc =
        (acc.reverse ++ id) :: splitSepGo rest.length rest [] := by
  intro id
  induction id with
  | nil =>
    intro f rest acc _ hf
    simp only [List.length_nil] at hf
    cases f with
    | zero => omega
    | succ f =>
      have hp : List.isPrefixOf ctSep
          (' ' :: '-' :: ' ' :: rest) = true := by
        simp [ctSep, List.isPrefixOf]
      have hsh : ([] : List Char) ++ ctSep ++ rest
          = ' ' :: '-' :: ' ' :: rest := rfl
      rw [hsh]
      simp only [splitSepGo, if_pos hp, List.drop_succ_cons, List.drop_zero]
      rw [splitSepGo_fuel_congr f rest.length rest [] (by omega) (le_refl _)]
      simp
  | cons c id ih =>
    intro f rest acc hc hf
    have hcs : c ≠ ' ' := by
      intro he
      exact hc (by simp [he])
    simp only [List.length_cons] at hf
    cases f with
    | zero => omega
    | succ f =>
      have hp : ¬ List.isPrefixOf ctSep
          (c :: (id ++ ctSep ++ rest)) = true := by
        simp [ctSep, List.isPrefixOf]
        intro he
        exact absurd he.symm hcs
      have hsh : (c :: id) ++ ctSep ++ rest
          = c :: (id ++ ctSep ++ rest) := rfl
      rw [hsh]
      simp only [splitSepGo, if_neg hp]
      rw [ih f rest (c :: acc) (fun hm => hc (List.mem_cons_of_mem c hm))
        (by omega)]
      simp

lemma splitSep_pair (id label : List Char) (hid : (' ') ∉ id)
    (hlbl : ¬ ctSep <:+: label) :
    splitSep (id ++ ctSep ++ label) = [id, label] := by
  unfold splitSep
  have hlen : id.length + 3 + label.length ≤ (id ++ ctSep ++ label).length := by
    simp only [List.length_append, ctSep, List.length_cons, List.length_nil]
    omega
  rw [splitSepGo_boundary id _ label [] hid hlen,
    splitSepGo_no_sep label.length label [] hlbl]
  simp

lemma dictGet_cons_self (m : List (List Char × List Char)) (k v : List Char) :
    dictGet ((k, v) :: m) k = some v := by
  simp [dictGet]

lemma dictGet_cons_ne (m : List (List Char × List Char)) (k v j : List Char)
    (h : k ≠ j) : dictGet ((k, v) :: m) j = dictGet m j := by
  simp [dictGet, h]

lemma buildCellTypesGo_ok :
    ∀ (pairs : List (List Char × List Char))
      (m : List (List Char × List Char)),
      (∀ p ∈ pairs, (' ') ∉ p.1 ∧ ¬ ctSep <:+: p.2) →
      (pairs.map Prod.fst).Nodup →
      ∃ mf, buildCellTypesGo m (pairs.map (fun p => p.1 ++ ctSep ++ p.2))
          = Except.ok mf
        ∧ (∀ p ∈ pairs, dictGet mf p.1 = some p.2)
        ∧ (∀ k, k ∉ pairs.map Prod.fst → dictGet mf k = dictGet m k) := by
  intro pairs
  induction pairs with
  | nil =>
    intro m _ _
    exact ⟨m, rfl, by simp, fun k _ => rfl⟩
  | cons p rest ih =>
    intro m hform hnd
    have hp := hform p (List.mem_cons_self p rest)
    have hsplit := splitSep_pair p.1 p.2 hp.1 hp.2
    simp only [List.map_cons, List.nodup_cons] at hnd
    obtain ⟨mf, hok, hget, hpres⟩ :=
      ih ((p.1, p.2) :: m) (fun q hq => hform q (List.mem_cons_of_mem p hq))
        hnd.2
    refine ⟨mf, ?_, ?_, ?_⟩
    · simp only [List.map_cons, buildCellTypesGo, hsplit]
      exact hok
    · intro q hq
      rcases List.mem_cons.mp hq with he | hm
      · subst he
        rw [hpres q.1 hnd.1, dictGet_cons_self]
      · exact hget q hm
    · intro k hk
      simp only [List.map_cons, List.mem_cons] at hk
      push_neg at hk
      rw [hpres k hk.2, dictGet_cons_ne _ _ _ _ (fun he => hk.1 he.symm)]

lemma processUnits_ok (ct : List (List Char × List Char))
    (lblOf : UnitData → List Char) (idOf : UnitData → ℕ) :
    ∀ units : List UnitData,
      (∀ u ∈ units, dictGet ct u.name = some (lblOf u)
        ∧ parseUnitId u.name = some (idOf u)) →
      processUnits ct units
        = (units.map (fun u => spikeUnitRow u (lblOf u) (idOf u)), true) := by
  intro units
  induction units with
  | nil => intro _; rfl
  | cons u rest ih =>
    intro h
    have hu := h u (List.mem_cons_self u rest)
    have hr := ih (fun v hv => h v (List.mem_cons_of_mem u hv))
    simp [processUnits, hu.1, hu.2, hr]

lemma processUnits_abort (ct : List (List Char × List Char))
    (lblOf : UnitData → List Char) (idOf : UnitData → ℕ) (u : UnitData)
    (hu : dictGet ct u.name = none) :
    ∀ (pre post : List UnitData),
      (∀ v ∈ pre, dictGet ct v.name = some (lblOf v)
        ∧ parseUnitId v.name = some (idOf v)) →
      processUnits ct (pre ++ u :: post)
        = (pre.map (fun v => spikeUnitRow v (lblOf v) (idOf v)), false) := by
  intro pre
  induction pre with
  | nil =>
    intro post _
    simp [processUnits, hu]
  | cons v rest ih =>
    intro post h
    have hv := h v (List.mem_cons_self v rest)
    have hr := ih post (fun w hw => h w (List.mem_cons_of_mem v hw))
    simp [processUnits, hv.1, hv.2, hr]

lemma getD_map_of_lt {α β : Type} (g : α → β) :
    ∀ (l : List α) (i : ℕ), i < l.length → ∀ (d : α) (e : β),
      (l.map g).getD i e = g (l.getD i d) := by
  intro l
  induction l with
  | nil => intro i hi; simp at hi
  | cons x rest ih =>
    intro i hi d e
    cases i with
    | zero => rfl
    | succ i =>
      simp only [List.length_cons, Nat.succ_lt_succ_iff] at hi
      simp only [List.map_cons, List.getD_cons_succ]
      exact ih i hi d e

lemma populate_mem {K : Type} [DecidableEq K] (mk : K → Bool) :
    ∀ (ks st : List K) (x : K), x ∈ st → x ∈ (populate mk ks st).1 := by
  intro ks
  induction ks with
  | nil => intro st x hx; exact hx
  | cons k rest ih =>
    intro st x hx
    simp only [populate]
    by_cases h1 : k ∈ st
    · rw [if_pos h1]; exact ih st x hx
    · rw [if_neg h1]
      by_cases h2 : mk k = true
      · rw [if_pos h2]; exact ih (k :: st) x (List.mem_cons_of_mem k hx)
      · rw [if_neg h2]; exact ih st x hx

lemma populate_covers {K : Type} [DecidableEq K] (mk : K → Bool) :
    ∀ (ks st : List K) (x : K), x ∈ ks → mk x = true →
      x ∈ (populate mk ks st).1 := by
  intro ks
  induction ks with
  | nil => intro st x hx; simp at hx
  | cons k rest ih =>
    intro st x hx hmk
    simp only [populate]
    rcases List.mem_cons.mp hx with he | hm
    · subst he
      by_cases h1 : x ∈ st
      · rw [if_pos h1]; exact populate_mem mk rest st x h1
      · rw [if_neg h1, if_pos hmk]
        exact populate_mem mk rest (x :: st) x (List.mem_cons_self x st)
    · by_cases h1 : k ∈ st
      · rw [if_pos h1]; exact ih st x hm hmk
      · by_cases h2 : mk k = true
        · rw [if_neg h1, if_pos h2]; exact ih (k :: st) x hm hmk
        · rw [if_neg h1, if_neg h2]; exact ih st x hm hmk

lemma populate_stable {K : Type} [DecidableEq K] (mk : K → Bool) :
    ∀ (ks st : List K), (∀ k ∈ ks, mk k = true → k ∈ st) →
      populate mk ks st = (st, 0) := by
  intro ks
  induction ks with
  | nil => intro st _; rfl
  | cons k rest ih =>
    intro st h
    simp only [populate]
    by_cases h1 : k ∈ st
    · rw [if_pos h1]
      exact ih st (fun j hj => h j (List.mem_cons_of_mem k hj))
    · have h2 : ¬ mk k = true := fun hmk => h1 (h k (List.mem_cons_self k rest) hmk)
      rw [if_neg h1, if_neg h2]
      exact ih st (fun j hj => h j (List.mem_cons_of_mem k hj))

lemma takeWhile_comma (r : List Char) :
    ∀ t : List Char, (',') ∉ t →
      (t ++ ',' :: r).takeWhile (fun c => c != ',') = t := by
  intro t
  induction t with
  | nil => intro _; simp [List.takeWhile]
  | cons c rest ih =>
    intro h
    have hc : c ≠ ',' := fun he => h (by simp [he])
    simp only [List.cons_append, List.takeWhile_cons]
    rw [if_pos (by simp [hc]), ih (fun hm => h (List.mem_cons_of_mem c hm))]

lemma dropWhile_comma (r : List Char) :
    ∀ t : List Char, (',') ∉ t →
      (t ++ ',' :: r).dropWhile (fun c => c != ',') = ',' :: r := by
  intro t
  induction t with
  | nil => intro _; simp [List.dropWhile]
  | cons c rest ih =>
    intro h
    have hc : c ≠ ',' := fun he => h (by simp [he])
    simp only [List.cons_append, List.dropWhile_cons]
    rw [if_pos (by simp [hc])]
    exact ih (fun hm => h (List.mem_cons_of_mem c hm))

lemma mem_segIndices (ts : List ℚ) (a b : ℚ) (i : ℕ) :
    i ∈ segIndices ts a b
      ↔ i < ts.length ∧ a ≤ ts.getD i 0 ∧ ts.getD i 0 ≤ b := by
  simp [segIndices, List.mem_filter, List.mem_range, and_assoc]

lemma sorted_getD_mono (ts : List ℚ)
    (hs : ts.Sorted (fun x y => x ≤ y)) (i j : ℕ) (hij : i ≤ j)
    (hj : j < ts.length) : ts.getD i 0 ≤ ts.getD j 0 := by
  have hi : i < ts.length := lt_of_le_of_lt hij hj
  rw [List.getD_eq_getElem ts 0 hi, List.getD_eq_getElem ts 0 hj]
  have := List.Sorted.rel_get_of_le hs (a := ⟨i, hi⟩) (b := ⟨j, hj⟩) hij
  simpa using this

lemma segIndices_convex (ts : List ℚ)
    (hs : ts.Sorted (fun x y => x ≤ y)) (a b : ℚ) (i j k : ℕ)
    (hij : i ≤ j) (hjk : j ≤ k) (hi : i ∈ segIndices ts a b)
    (hk : k ∈ segIndices ts a b) : j ∈ segIndices ts a b := by
  rw [mem_segIndices] at hi hk ⊢
  have hjlen : j < ts.length := lt_of_le_of_lt hjk hk.1
  exact ⟨hjlen, le_trans hi.2.1 (sorted_getD_mono ts hs i j hij hjlen),
    le_trans (sorted_getD_mono ts hs j k hjk hk.1) hk.2.2⟩

lemma segment_cons {α : Type} (v : α) (vs : List α) (t : ℚ) (ts : List ℚ)
    (a b : ℚ) :
    segment (v :: vs) (t :: ts) a b
      = (if a ≤ t ∧ t ≤ b then [v] else []) ++ segment vs ts a b := by
  simp only [segment, List.zip_cons_cons, List.filter_cons]
  by_cases hc : a ≤ t ∧ t ≤ b
  · simp [hc]
  · simp [hc]

lemma segIndices_cons (t : ℚ) (ts : List ℚ) (a b : ℚ) :
    segIndices (t :: ts) a b
      = (if a ≤ t ∧ t ≤ b then [0] else [])
        ++ (segIndices ts a b).map Nat.succ := by
  simp only [segIndices, List.length_cons, List.range_succ_eq_map,
    List.filter_cons, List.filter_map, Function.comp_def,
    List.getD_cons_succ, List.getD_cons_zero]
  by_cases hc : a ≤ t ∧ t ≤ b
  · simp [hc]
  · simp [hc]

lemma segment_eq_map {α : Type} (d : α) :
    ∀ (ts : List ℚ) (values : List α), ts.length = values.length →
      ∀ a b : ℚ,
        segment values ts a b
          = (segIndices ts a b).map (fun i => values.getD i d) := by
  intro ts
  induction ts with
  | nil =>
    intro values h a b
    simp [segment, segIndices]
  | cons t ts ih =>
    intro values h a b
    cases values with
    | nil => simp at h
    | cons v vs =>
      simp only [List.length_cons, Nat.succ_inj] at h
      rw [segment_cons, segIndices_cons, List.map_append, List.map_map,
        ih vs h a b]
      by_cases hc : a ≤ t ∧ t ≤ b
      · simp [hc, Function.comp_def]
      · simp [hc, Function.comp_def]

lemma locate_eq_none {α : Type} (cands : List (FileMeta × α))
    (sid : String) (st : ℕ)
    (h : ∀ c ∈ cands, ¬ (c.1.subjectId = sid ∧ c.1.sessionTime = st)) :
    locate cands sid st = none := by
  unfold locate
  rw [List.find?_eq_none.mpr ?_]
  · rfl
  · intro c hc
    simp only [Bool.and_eq_true, beq_iff_eq, not_and]
    exact fun h1 h2 => h c hc ⟨h1, h2⟩

/-! Claim theorems. -/

/-- C1: for every value array, ascending timestamp array and trial window
[start, stop], the segmentation operation returns exactly the contiguous
index range of timestamps inside the window and the corresponding slice of
values; on the spec's example it returns [11, 12, 13], and an empty
intersection yields an empty sub-array. -/
theorem guo_c1_segmentation :
    (∀ {α : Type} (values : List α) (ts : List ℚ) (a b : ℚ),
        ts.Sorted (fun x y => x ≤ y) → ts.length = values.length →
        ((∀ i, i ∈ segIndices ts a b
            ↔ i < ts.length ∧ a ≤ ts.getD i 0 ∧ ts.getD i 0 ≤ b)
          ∧ (∀ i j k, i ≤ j → j ≤ k → i ∈ segIndices ts a b →
              k ∈ segIndices ts a b → j ∈ segIndices ts a b)
          ∧ ∀ d : α, segment values ts a b
              = (segIndices ts a b).map (fun i => values.getD i d)))
    ∧ segment exVals exTs (mkRat 2 5) (mkRat 19 10) = [11, 12, 13]
    ∧ segment exVals exTs 3 (mkRat 16 5) = [] := by
  refine ⟨?_, by decide, by decide⟩
  intro α values ts a b hs hlen
  exact ⟨mem_segIndices ts a b,
    fun i j k => segIndices_convex ts hs a b i j k,
    fun d => segment_eq_map d ts values hlen a b⟩

/-- Witness for C1: the general statement instantiated at the spec's worked
example, with the sortedness and length hypotheses discharged. -/
theorem guo_c1_segmentation_witness :
    (∀ i, i ∈ segIndices exTs (mkRat 2 5) (mkRat 19 10)
        ↔ i < exTs.length ∧ mkRat 2 5 ≤ exTs.getD i 0
          ∧ exTs.getD i 0 ≤ mkRat 19 10)
      ∧ (∀ i j k, i ≤ j → j ≤ k →
          i ∈ segIndices exTs (mkRat 2 5) (mkRat 19 10) →
          k ∈ segIndices exTs (mkRat 2 5) (mkRat 19 10) →
          j ∈ segIndices exTs (mkRat 2 5) (mkRat 19 10))
      ∧ ∀ d : ℤ, segment exVals exTs (mkRat 2 5) (mkRat 19 10)
          = (segIndices exTs (mkRat 2 5) (mkRat 19 10)).map
              (fun i => exVals.getD i d) :=
  guo_c1_segmentation.1 exVals exTs (mkRat 2 5) (mkRat 19 10)
    (by decide) (by decide)

/-- C2: each ingestion make step inserts its master row before any of its
part rows, and under the engine's per-key transaction an interrupted step
commits either nothing or all of its operations — no partial entity is left
referencable, so a failed key is retryable. -/
theorem guo_c2_atomic_per_key :
    (∀ f : IntraFile, ∃ parts,
        dbOps (intracellularAcquisitionMake (some f)) = Ev.insMaster :: parts
          ∧ ∀ e ∈ parts, isPartIns e = true)
    ∧ (∀ f : BehaviorFile, ∃ parts,
        dbOps (behaviorAcquisitionMake (some f)) = Ev.insMaster :: parts
          ∧ ∀ e ∈ parts, isPartIns e = true)
    ∧ (∀ (ops : List Ev) (failAt : Option ℕ),
        runTx ops failAt = [] ∨ runTx ops failAt = ops) := by
  refine ⟨fun f => ⟨[Ev.insPart "MembranePotential",
      Ev.insPart "CurrentInjection"], rfl, by decide⟩,
    fun f => ⟨[Ev.insPart "LickTrace"], rfl, by decide⟩, ?_⟩
  intro ops failAt
  cases failAt with
  | none => exact Or.inr rfl
  | some n =>
    simp only [runTx]
    by_cases h : n < ops.length
    · rw [if_pos h]
      exact Or.inl rfl
    · rw [if_neg h]
      exact Or.inr rfl

/-- Witness for C2: the intracellular make trace on a concrete file starts
with the master insert, and an interrupted transaction over it commits
nothing. -/
theorem guo_c2_atomic_per_key_witness :
    (∃ parts, dbOps (intracellularAcquisitionMake (some ⟨(Dtype.f64, []),
          (Dtype.f64, []), (Dtype.f64, []), (Dtype.f64, []),
          (Dtype.f64, [])⟩)) = Ev.insMaster :: parts
        ∧ ∀ e ∈ parts, isPartIns e = true)
      ∧ (runTx [Ev.insMaster, Ev.insPart "MembranePotential"] (some 1) = []
          ∨ runTx [Ev.insMaster, Ev.insPart "MembranePotential"] (some 1)
            = [Ev.insMaster, Ev.insPart "MembranePotential"]) :=
  ⟨guo_c2_atomic_per_key.1 ⟨(Dtype.f64, []), (Dtype.f64, []),
      (Dtype.f64, []), (Dtype.f64, []), (Dtype.f64, [])⟩,
    guo_c2_atomic_per_key.2.2 [Ev.insMaster,
      Ev.insPart "MembranePotential"] (some 1)⟩

/-- C3: when no candidate raw file matches the (subject_id, session_time)
query, the locator returns none and each ingestion make step is a no-op:
no event is performed, no row inserted, and the step does not fail. -/
theorem guo_c3_no_file_noop :
    ∀ (sid : String) (st : ℕ),
      (∀ cands : List (FileMeta × BehaviorFile),
        (∀ c ∈ cands, ¬ (c.1.subjectId = sid ∧ c.1.sessionTime = st)) →
        locate cands sid st = none
          ∧ behaviorAcquisitionMake (locate cands sid st) = [])
      ∧ (∀ cands : List (FileMeta × IntraFile),
        (∀ c ∈ cands, ¬ (c.1.subjectId = sid ∧ c.1.sessionTime = st)) →
        locate cands sid st = none
          ∧ intracellularAcquisitionMake (locate cands sid st) = [])
      ∧ (∀ cands : List (FileMeta × SpikeFile),
        (∀ c ∈ cands, ¬ (c.1.subjectId = sid ∧ c.1.sessionTime = st)) →
        locate cands sid st = none
          ∧ spikeMake (locate cands sid st) = ([], true)) := by
  intro sid st
  refine ⟨fun cands h => ?_, fun cands h => ?_, fun cands h => ?_⟩
  · rw [locate_eq_none cands sid st h]
    exact ⟨rfl, rfl⟩
  · rw [locate_eq_none cands sid st h]
    exact ⟨rfl, rfl⟩
  · rw [locate_eq_none cands sid st h]
    exact ⟨rfl, rfl⟩

/-- Witness for C3: a directory with a single non-matching candidate for
each modality; the session key finds no file and every make step is a
no-op. -/
theorem guo_c3_no_file_noop_witness :
    (locate [(⟨"ANM001", 1⟩, (⟨(Dtype.f64, []), (Dtype.f64, []),
        (Dtype.f64, [])⟩ : BehaviorFile))] "ANM002" 2 = none
      ∧ behaviorAcquisitionMake (locate [(⟨"ANM001", 1⟩,
          (⟨(Dtype.f64, []), (Dtype.f64, []), (Dtype.f64, [])⟩ :
            BehaviorFile))] "ANM002" 2) = [])
    ∧ (locate [(⟨"ANM001", 1⟩, (⟨(Dtype.f64, []), (Dtype.f64, []),
        (Dtype.f64, []), (Dtype.f64, []), (Dtype.f64, [])⟩ :
          IntraFile))] "ANM002" 2 = none
      ∧ intracellularAcquisitionMake (locate [(⟨"ANM001", 1⟩,
          (⟨(Dtype.f64, []), (Dtype.f64, []), (Dtype.f64, []),
            (Dtype.f64, []), (Dtype.f64, [])⟩ : IntraFile))]
          "ANM002" 2) = [])
    ∧ (locate [(⟨"ANM001", 1⟩, (⟨[], []⟩ : SpikeFile))] "ANM002" 2 = none
      ∧ spikeMake (locate [(⟨"ANM001", 1⟩, (⟨[], []⟩ : SpikeFile))]
          "ANM002" 2) = ([], true)) :=
  ⟨(guo_c3_no_file_noop "ANM002" 2).1 _ (by decide),
    (guo_c3_no_file_noop "ANM002" 2).2.1 _ (by decide),
    (guo_c3_no_file_noop "ANM002" 2).2.2 _ (by decide)⟩

/-- C7 (refuting theorem): `BehaviorAcquisition.make` opens the raw file
but its trace never contains a close event, on any input — the handle is
leaked even on the successful path. -/
theorem guo_c7_handle_never_closed :
    ∀ f : BehaviorFile,
      Ev.fopen ∈ behaviorAcquisitionMake (some f)
        ∧ Ev.fclose ∉ behaviorAcquisitionMake (some f) := by
  intro f
  refine ⟨?_, ?_⟩
  · simp [behaviorAcquisitionMake]
  · simp [behaviorAcquisitionMake]

/-- C8 (refuting theorem): the CurrentInjection timestamps field is stored
as a one-element python tuple wrapping the array (trailing comma at
acquisition.py line 161), not as a numpy array; the sibling fields are
stored as arrays with their native dtype. -/
theorem guo_c8_ci_timestamps_tuple :
    ∀ (f : IntraFile) (bf : BehaviorFile),
      (intraCIRow f).currentInjectionTimeStamps.isArr = false
        ∧ (intraCIRow f).currentInjectionTimeStamps
            = PyVal.tup [PyVal.arr f.ciTs.1 f.ciTs.2]
        ∧ (intraCIRow f).currentInjection = PyVal.arr f.ciData.1 f.ciData.2
        ∧ (intraMPRow f).membranePotential = PyVal.arr f.mpData.1 f.mpData.2
        ∧ (intraMPRow f).membranePotentialTimeStamps
            = PyVal.arr f.mpTs.1 f.mpTs.2
        ∧ (behaviorLickRow bf).lickTraceTimeStamps
            = PyVal.arr bf.lickTsL.1 bf.lickTsL.2 := by
  intro f bf
  exact ⟨rfl, rfl, rfl, rfl, rfl, rfl⟩

/-- C4: for every ingested spike unit, the stored channel_id equals the
1-based electrode index read from the file minus one, and no other stored
field of the unit row is shifted. -/
theorem guo_c4_channel_normalization
    (ct : List (List Char × List Char)) (units : List UnitData)
    (lblOf : UnitData → List Char) (idOf : UnitData → ℕ)
    (h : ∀ u ∈ units, dictGet ct u.name = some (lblOf u)
      ∧ parseUnitId u.name = some (idOf u))
    (i : ℕ) (hi : i < units.length) :
    ((processUnits ct units).1.getD i default).channelId
        = (units.getD i default).electrodeIdx - 1
      ∧ ((processUnits ct units).1.getD i default).unitId
          = idOf (units.getD i default)
      ∧ ((processUnits ct units).1.getD i default).spikeTimes
          = (units.getD i default).times
      ∧ ((processUnits ct units).1.getD i default).spikeWaveform
          = (units.getD i default).waveform := by
  rw [processUnits_ok ct lblOf idOf units h]
  rw [getD_map_of_lt _ units i hi default default]
  exact ⟨rfl, rfl, rfl, rfl⟩

/-- Witness for C4: one unit named unit_01 on electrode 3 of the file gets
channel_id 2 and keeps its parsed unit id. -/
theorem guo_c4_channel_normalization_witness :
    ((processUnits [("unit_01".toList, "wide".toList)]
        [⟨"unit_01".toList, 3, (0, 0, 0), [], []⟩]).1.getD 0
          default).channelId = 2
      ∧ ((processUnits [("unit_01".toList, "wide".toList)]
        [⟨"unit_01".toList, 3, (0, 0, 0), [], []⟩]).1.getD 0
          default).unitId = 1 := by
  have h := guo_c4_channel_normalization
    [("unit_01".toList, "wide".toList)]
    [⟨"unit_01".toList, 3, (0, 0, 0), [], []⟩]
    (fun _ => "wide".toList) (fun _ => 1) (by decide) 0 (by decide)
  exact ⟨h.1, h.2.1⟩

/-- C5: the cell-type decoder sends each identifier of an "ID - LABEL"
string table to its label, and each ingested spike unit's cell type is the
label the decoded table maps its identifier to. -/
theorem guo_c5_cell_type_decoder :
    (∀ pairs : List (List Char × List Char),
        (∀ p ∈ pairs, (' ') ∉ p.1 ∧ ¬ ctSep <:+: p.2) →
        (pairs.map Prod.fst).Nodup →
        ∃ m, buildCellTypes (pairs.map (fun p => p.1 ++ ctSep ++ p.2))
            = Except.ok m
          ∧ ∀ p ∈ pairs, dictGet m p.1 = some p.2)
    ∧ (∀ (ct : List (List Char × List Char)) (units : List UnitData)
        (lblOf : UnitData → List Char) (idOf : UnitData → ℕ),
        (∀ u ∈ units, dictGet ct u.name = some (lblOf u)
          ∧ parseUnitId u.name = some (idOf u)) →
        ∀ i, i < units.length →
          ((processUnits ct units).1.getD i default).cellType
            = lblOf (units.getD i default)
          ∧ dictGet ct (units.getD i default).name
            = some (lblOf (units.getD i default))) := by
  constructor
  · intro pairs hform hnd
    obtain ⟨mf, hok, hget, _⟩ := buildCellTypesGo_ok pairs [] hform hnd
    exact ⟨mf, hok, hget⟩
  · intro ct units lblOf idOf h i hi
    have hmem : units.getD i default ∈ units := by
      rw [List.getD_eq_getElem units default hi]
      exact List.getElem_mem hi
    rw [processUnits_ok ct lblOf idOf units h]
    rw [getD_map_of_lt _ units i hi default default]
    exact ⟨rfl, (h (units.getD i default) hmem).1⟩

/-- Witness for C5: a two-row table decodes to the expected mapping, and a
concrete ingested unit carries the mapped label. -/
theorem guo_c5_cell_type_decoder_witness :
    (∃ m, buildCellTypes ([("unit_01".toList, "wide width".toList),
        ("unit_02".toList, "narrow".toList)].map
          (fun p => p.1 ++ ctSep ++ p.2)) = Except.ok m
      ∧ ∀ p ∈ [("unit_01".toList, "wide width".toList),
          ("unit_02".toList, "narrow".toList)], dictGet m p.1 = some p.2)
    ∧ ((processUnits [("unit_01".toList, "wide".toList)]
        [⟨"unit_01".toList, 3, (0, 0, 0), [], []⟩]).1.getD 0
          default).cellType = "wide".toList := by
  refine ⟨guo_c5_cell_type_decoder.1 _ (by decide) (by decide), ?_⟩
  exact (guo_c5_cell_type_decoder.2 [("unit_01".toList, "wide".toList)]
    [⟨"unit_01".toList, 3, (0, 0, 0), [], []⟩]
    (fun _ => "wide".toList) (fun _ => 1) (by decide) 0 (by decide)).1

/-- C6: the trial-descriptor split returns (trial_type, stim_present) when
the comma separator is present — on "Lick L trial, Stim" it yields the type
"Lick L trial" with stim_present true — and fails exactly when the
separator is absent. -/
theorem guo_c6_descriptor_split :
    (∀ t r : List Char, (',') ∉ t →
        splitTrialDescriptor (t ++ ',' :: r) = Except.ok (t, parseStim r))
    ∧ (∀ s : List Char, (',') ∉ s →
        splitTrialDescriptor s = Except.error ())
    ∧ splitTrialDescriptor ("Lick L trial, Stim".toList)
        = Except.ok ("Lick L trial".toList, true) := by
  refine ⟨?_, ?_, rfl⟩
  · intro t r ht
    have hmem : (',') ∈ t ++ ',' :: r :=
      List.mem_append_right t (List.mem_cons_self _ _)
    simp only [splitTrialDescriptor, if_pos hmem]
    rw [takeWhile_comma r t ht, dropWhile_comma r t ht]
    rfl
  · intro s hs
    simp only [splitTrialDescriptor, if_neg hs]

/-- Witness for C6: the split applied to the spec's example descriptor and
to a comma-free descriptor. -/
theorem guo_c6_descriptor_split_witness :
    splitTrialDescriptor ("Lick L trial".toList ++ ',' :: " Stim".toList)
        = Except.ok ("Lick L trial".toList, parseStim (" Stim".toList))
      ∧ splitTrialDescriptor ("Lick L trial and Stim".toList)
          = Except.error () :=
  ⟨guo_c6_descriptor_split.1 ("Lick L trial".toList) (" Stim".toList)
      (by decide),
    guo_c6_descriptor_split.2.1 ("Lick L trial and Stim".toList)
      (by decide)⟩

/-- C9: running population twice in a row yields zero inserts on the second
run and leaves the entity set identical to a single run, for any entity
kind, make behavior, key source and starting state. -/
theorem guo_c9_populate_idempotent {K : Type} [DecidableEq K]
    (mk : K → Bool) (ks ex : List K) :
    populate mk ks (populate mk ks ex).1 = ((populate mk ks ex).1, 0) :=
  populate_stable mk ks (populate mk ks ex).1
    (fun k hk hmk => populate_covers mk ks ex k hk hmk)

/-- Witness for C9: a concrete two-key source where one make inserts and
the other does not; the second run inserts nothing and keeps the state. -/
theorem guo_c9_populate_idempotent_witness :
    populate (fun s => s == "a") ["a", "b"]
        (populate (fun s => s == "a") ["a", "b"] []).1
      = ((populate (fun s => s == "a") ["a", "b"] []).1, 0) :=
  guo_c9_populate_idempotent (fun s => s == "a") ["a", "b"] []

/-- C10: if some unit name of the file has no cell_types entry, the lookup
aborts the whole make step for the key: the step ends in the error state
with rows only for the units processed before the missing one, and none for
that unit or any unit after it. -/
theorem guo_c10_missing_cell_type_aborts
    (f : SpikeFile) (ct : List (List Char × List Char))
    (pre post : List UnitData) (u : UnitData)
    (lblOf : UnitData → List Char) (idOf : UnitData → ℕ)
    (hb : buildCellTypes f.cellTypes = Except.ok ct)
    (hu : f.units = pre ++ u :: post)
    (hpre : ∀ v ∈ pre, dictGet ct v.name = some (lblOf v)
      ∧ parseUnitId v.name = some (idOf v))
    (hmiss : dictGet ct u.name = none) :
    spikeMake (some f)
      = (pre.map (fun v => spikeUnitRow v (lblOf v) (idOf v)), false) := by
  simp only [spikeMake, hb, hu]
  exact processUnits_abort ct lblOf idOf u hmiss pre post hpre

/-- Witness for C10: a file with units unit_01 and unit_99 where only
unit_01 has a cell_types entry; the step aborts with only the unit_01
row. -/
theorem guo_c10_missing_cell_type_aborts_witness :
    spikeMake (some ⟨["unit_01 - wide".toList],
        [⟨"unit_01".toList, 3, (0, 0, 0), [], []⟩,
          ⟨"unit_99".toList, 4, (0, 0, 0), [], []⟩]⟩)
      = ([spikeUnitRow ⟨"unit_01".toList, 3, (0, 0, 0), [], []⟩
          ("wide".toList) 1], false) :=
  guo_c10_missing_cell_type_aborts
    ⟨["unit_01 - wide".toList],
      [⟨"unit_01".toList, 3, (0, 0, 0), [], []⟩,
        ⟨"unit_99".toList, 4, (0, 0, 0), [], []⟩]⟩
    [("unit_01".toList, "wide".toList)]
    [⟨"unit_01".toList, 3, (0, 0, 0), [], []⟩] []
    ⟨"unit_99".toList, 4, (0, 0, 0), [], []⟩
    (fun _ => "wide".toList) (fun _ => 1)
    rfl rfl (by decide) (by decide)

end Guo2017
